import Mathlib

set_option maxRecDepth 8000

/-! Verification of the one-shot source patcher `fix_auth.py`.

The script reads a C++ source file, replaces every occurrence of a literal
anchor pattern (a hardcoded user-identity stub) by an authentication-guarded
block that preserves the next `response = ... ;` statement, writes the result
back and prints an acknowledgment.  Text is modelled as `List Char`; the
Python primitives `str.find`, slicing, `str.replace` and `re.sub` with a
callback (the pattern is a pure literal, so the regex engine performs exact
literal matching) are modelled below, and the script's I/O as an effect trace.
-/

/-- Python strings are modelled as lists of characters. -/
abbrev Str := List Char

/-- Coerce a Lean string literal to the character-list model. -/
def strOf (s : String) : Str := s.data

/-- Line 10: the anchor pattern.  The raw-string literal contains no regex
metacharacter, so `re` matches it verbatim. -/
def pattern : Str := strOf "std::string user_id = \"authenticated_user\"; // TODO: Extract from JWT"

/-- Line 33: the lexeme searched for after a match, `response =`. -/
def respLex : Str := strOf "response ="

/-- Line 36: the statement terminator searched for, `;`. -/
def semi : Str := strOf ";"

/-- Helper for `str.find`: first index at or after the accumulator `i`
where `sub` starts in the remaining text.  (Both lexemes searched by the
script are nonempty, which is the case this models.) -/
def findAux (sub : Str) : Str → Nat → Option Nat
  | [], _ => none
  | c :: cs, i => if sub.isPrefixOf (c :: cs) then some i else findAux sub cs (i + 1)

/-- Python `s.find(sub, start)`, returning `none` for `-1`. -/
def pyFind (s sub : Str) (start : Nat) : Option Nat := findAux sub (s.drop start) start

/-- Python slicing `s[a:b]` (for `a ≤ b`, as used by the script). -/
def pySlice (s : Str) (a b : Nat) : Str := (s.drop a).take (b - a)

/-- The f-string of lines 40-44 up to the splice point `{response_assignment}`:
after Python escape processing `\x7b\x7b`/`\x7d\x7d` become single braces and
`\"` a quote.  Indentation is exactly that of the source lines. -/
def replPre : Str := strOf "std::string user_id = authenticate_and_get_user_id(headers);\n                    if (user_id.empty()) \x7b\n                        response = \"\x7b\"error\":\"Unauthorized: Invalid or missing authentication token\"\x7d\";\n                    \x7d else \x7b\n                        "

/-- The f-string of lines 44-45 after the splice point. -/
def replPost : Str := strOf "\n                    \x7d"

/-- Lines 27-47, `replace_user_id(match)`.  The pattern is a literal, so
`match.group(0)` is the pattern itself (`full_match`) and `match.end()` is
the offset just after the match (`endPos`); `content` is the script's global
file content that the function closes over. -/
def replace_user_id (content full_match : Str) (endPos : Nat) : Str :=
  match pyFind content respLex endPos with
  | some next_response =>
    match pyFind content semi next_response with
    | some response_end =>
      replPre ++ pySlice content next_response (response_end + 1) ++ replPost
    | none => full_match
  | none => full_match

/-- Model of `re.sub(pat, f, -)` for a nonempty literal pattern `pat`: scan left to
right, and at each match emit `f` applied to the matched text and its end
offset, then resume after the match.  `skip` counts characters of a match
still to be consumed without rescanning (so matches never overlap), making
the recursion structural. -/
def reSubAux (pat : Str) (f : Str → Nat → Str) : Str → Nat → Nat → Str
  | [], _, _ => []
  | _ :: cs, pos, skip + 1 => reSubAux pat f cs (pos + 1) skip
  | c :: cs, pos, 0 =>
    if pat.isPrefixOf (c :: cs) then
      f pat (pos + pat.length) ++ reSubAux pat f cs (pos + 1) (pat.length - 1)
    else
      c :: reSubAux pat f cs (pos + 1) 0

/-- Line 50: `new_content = re.sub(pattern, replace_user_id, content)`. -/
def patch (content : Str) : Str := reSubAux pattern (replace_user_id content) content 0 0

/-- Python `str.replace` for a nonempty literal pattern (used on line 21). -/
def pyReplaceAux (pat repl : Str) : Str → Nat → Str
  | [], _ => []
  | _ :: cs, skip + 1 => pyReplaceAux pat repl cs skip
  | c :: cs, 0 =>
    if pat.isPrefixOf (c :: cs) then
      repl ++ pyReplaceAux pat repl cs (pat.length - 1)
    else
      c :: pyReplaceAux pat repl cs 0

/-- Python `s.replace(pat, repl)`. -/
def pyReplace (s pat repl : Str) : Str := pyReplaceAux pat repl s 0

/-- Lines 13-18: the first, simple replacement text (after `\"` escape
processing; braces are literal in this non-f-string). -/
def replacement0 : Str := strOf "std::string user_id = authenticate_and_get_user_id(headers);\n                    if (user_id.empty()) \x7b\n                        response = \"\x7b\"error\":\"Unauthorized: Invalid or missing authentication token\"\x7d\";\n                    \x7d else \x7b\n                        // Continue with original logic\n                        response ="

/-- The value of the variable `new_content` at line 53, after the assignment
of line 21 (`content.replace`) has been shadowed by the reassignment of
line 50 (`re.sub`).  This is the content written back to the file. -/
def scriptWritten (content : Str) : Str :=
  let new_content := pyReplace content pattern replacement0
  let new_content := reSubAux pattern (replace_user_id content) content 0 0
  new_content

/-- Observable side effects of one run of the script. -/
inductive Effect where
  | wroteFile : Str → Effect
  | printedMsg : Str → Effect
deriving DecidableEq

/-- Line 56: the completion acknowledgment. -/
def ackMsg : Str := strOf "Replacement completed"

/-- The whole script as a straight-line effectful program: read (lines 6-7),
transform (lines 21 and 50), write (lines 53-54), print (line 56).  A failed
read or a failed open-for-write raises, producing no later effect; on success
the write happens before the acknowledgment is printed. -/
def runScript {ε : Type} (readRes : Except ε Str) (writeRes : Except ε Unit) :
    List Effect × Option ε :=
  match readRes with
  | Except.error e => ([], some e)
  | Except.ok content =>
    match writeRes with
    | Except.error e => ([], some e)
    | Except.ok _ => ([Effect.wroteFile (scriptWritten content), Effect.printedMsg ackMsg], none)

/-- A match ending at offset `e` is well-formed: a `response =` lexeme occurs
at or after `e` and a `;` occurs at or after the found lexeme (the two
`!= -1` checks of lines 34 and 37 both succeed). -/
def wfAt (content : Str) (e : Nat) : Bool :=
  match pyFind content respLex e with
  | some j => (pyFind content semi j).isSome
  | none => false

/-- Fixed head of a `response = "<literal>";` statement. -/
def respHead : Str := strOf "response = \""

/-- Fixed tail of a `response = "<literal>";` statement. -/
def respClose : Str := strOf "\";"

/-- A `response = "<literal>";` statement with the given literal. -/
def stmtOf (lit : Str) : Str := respHead ++ lit ++ respClose

/-- The else-branch opener inside the synthesized replacement block. -/
def elseOpen : Str := strOf "\x7d else \x7b\n                        "

/-- The replacement text before the else-branch opener. -/
def replPreA : Str := strOf "std::string user_id = authenticate_and_get_user_id(headers);\n                    if (user_id.empty()) \x7b\n                        response = \"\x7b\"error\":\"Unauthorized: Invalid or missing authentication token\"\x7d\";\n                    "

/-- The regex metacharacters of Python's `re` module. -/
def regexSpecials : Str := strOf ".^$*+?\x7b\x7d[]\\|()"

/-- No occurrence of the anchor pattern starts anywhere in `s`. -/
def NoOcc (s : Str) : Prop := ∀ t, ¬ pattern <+: s.drop t

/-- No occurrence of the anchor pattern starts within the `x`-part of
`x ++ tail` (it may well start in `tail`). -/
def NoStartIn (x tail : Str) : Prop :=
  ∀ t, t < x.length → ¬ pattern <+: (x ++ tail).drop t

/-! ### Basic facts about the fixed strings -/

lemma pattern_ne_nil : pattern ≠ [] := by decide

lemma pattern_length : pattern.length = 69 := by decide

lemma replPre_factor : replPre = replPreA ++ elseOpen := by decide

lemma respLex_ne_nil : respLex ≠ [] := by decide

lemma semi_ne_nil : semi ≠ [] := by decide

/-! ### Prefix and infix utilities -/

lemma prefix_append_of_le {p a b : Str} (h : p <+: a ++ b) (hl : p.length ≤ a.length) :
    p <+: a := by
  have h2 := List.prefix_iff_eq_take.mp h
  rw [List.take_append_eq_append_take] at h2
  have h3 : p.length - a.length = 0 := by omega
  rw [h3] at h2
  simp only [List.take_zero, List.append_nil] at h2
  rw [h2]
  exact List.take_prefix _ _

lemma prefix_split {p a b : Str} (h : p <+: a ++ b) (hl : a.length ≤ p.length) :
    a <+: p ∧ p.drop a.length <+: b := by
  have ha : a <+: p := List.prefix_of_prefix_length_le (List.prefix_append a b) h hl
  refine ⟨ha, ?_⟩
  obtain ⟨t, ht⟩ := ha
  obtain ⟨r, hr⟩ := h
  rw [← ht, List.append_assoc] at hr
  have hb := List.append_cancel_left hr
  rw [← ht, List.drop_left]
  exact ⟨r, hb⟩

lemma prefix_getElem? {p s : Str} (h : p <+: s) {m : Nat} (hm : m < p.length) :
    s[m]? = p[m]? := by
  obtain ⟨r, hr⟩ := h
  subst hr
  rw [List.getElem?_append]
  rw [if_pos hm]

lemma singleton_prefix_iff {c : Char} {l : Str} : [c] <+: l ↔ l[0]? = some c := by
  cases l with
  | nil => simp
  | cons d ds =>
    constructor
    · intro h
      obtain ⟨r, hr⟩ := h
      simp only [List.cons_append, List.nil_append] at hr
      injection hr with h1 _
      simp [h1]
    · intro h
      simp only [List.getElem?_cons_zero, Option.some.injEq] at h
      subst h
      exact ⟨ds, rfl⟩

lemma infix_iff_drop {p s : Str} : p <:+: s ↔ ∃ t, p <+: s.drop t := by
  constructor
  · rintro ⟨a, b, rfl⟩
    refine ⟨a.length, ?_⟩
    rw [List.append_assoc, List.drop_left]
    exact List.prefix_append p b
  · rintro ⟨t, r, hr⟩
    refine ⟨s.take t, r, ?_⟩
    rw [List.append_assoc, hr, List.take_append_drop]

/-! ### Correctness of the `str.find` model -/

lemma findAux_some {sub : Str} (hs : sub ≠ []) :
    ∀ (t : Str) (i j : Nat), findAux sub t i = some j →
      i ≤ j ∧ j - i < t.length ∧ sub <+: t.drop (j - i) ∧
        ∀ m, m < j - i → ¬ sub <+: t.drop m := by
  intro t
  induction t with
  | nil => intro i j h; simp [findAux] at h
  | cons c cs ih =>
    intro i j h
    by_cases hp : sub.isPrefixOf (c :: cs) = true
    · simp only [findAux, hp, if_true, Option.some.injEq] at h
      subst h
      refine ⟨le_rfl, by simp, ?_, ?_⟩
      · simpa using List.isPrefixOf_iff_prefix.mp hp
      · intro m hm; exact absurd hm (by omega)
    · simp only [findAux, hp, if_false] at h
      obtain ⟨h1, h2, h3, h4⟩ := ih (i + 1) j h
      refine ⟨by omega, by simp; omega, ?_, ?_⟩
      · have he : j - i = (j - (i + 1)) + 1 := by omega
        rw [he]
        simpa using h3
      · intro m hm
        cases m with
        | zero =>
          simpa [ List.isPrefixOf_iff_prefix] using hp
        | succ m' =>
          have := h4 m' (by omega)
          simpa using this

lemma findAux_none {sub : Str} (hs : sub ≠ []) :
    ∀ (t : Str) (i : Nat), findAux sub t i = none → ∀ m, ¬ sub <+: t.drop m := by
  intro t
  induction t with
  | nil =>
    intro i _ m
    simp only [List.drop_nil]
    simpa [List.prefix_nil] using hs
  | cons c cs ih =>
    intro i h m
    by_cases hp : sub.isPrefixOf (c :: cs) = true
    · simp [findAux, hp] at h
    · simp only [findAux, hp, if_false] at h
      cases m with
      | zero => simpa [ List.isPrefixOf_iff_prefix] using hp
      | succ m' =>
        have := ih (i + 1) h m'
        simpa using this

lemma findAux_intro_some {sub : Str} (hs : sub ≠ []) :
    ∀ (t : Str) (i j : Nat), i ≤ j → sub <+: t.drop (j - i) →
      (∀ m, m < j - i → ¬ sub <+: t.drop m) → findAux sub t i = some j := by
  intro t
  induction t with
  | nil =>
    intro i j _ hpre _
    rw [List.drop_nil] at hpre
    exact absurd (List.prefix_nil.mp hpre) hs
  | cons c cs ih =>
    intro i j hij hpre hmin
    rcases Nat.eq_or_lt_of_le hij with heq | hlt
    · subst heq
      simp only [Nat.sub_self, List.drop_zero] at hpre
      have hp : sub.isPrefixOf (c :: cs) = true := List.isPrefixOf_iff_prefix.mpr hpre
      simp [findAux, hp]
    · have h0 := hmin 0 (by omega)
      rw [List.drop_zero] at h0
      have hp : ¬ sub.isPrefixOf (c :: cs) = true := by
        simpa [ List.isPrefixOf_iff_prefix] using h0
      simp only [findAux, hp, if_false]
      apply ih (i + 1) j (by omega)
      · have he : j - (i + 1) = (j - i) - 1 := by omega
        rw [he]
        have he2 : j - i = ((j - i) - 1) + 1 := by omega
        rw [he2] at hpre
        simpa using hpre
      · intro m hm
        have := hmin (m + 1) (by omega)
        simpa using this

lemma findAux_intro_none {sub : Str} :
    ∀ (t : Str) (i : Nat), (∀ m, ¬ sub <+: t.drop m) → findAux sub t i = none := by
  intro t
  induction t with
  | nil => intro i _; simp [findAux]
  | cons c cs ih =>
    intro i h
    have h0 := h 0
    rw [List.drop_zero] at h0
    have hp : ¬ sub.isPrefixOf (c :: cs) = true := by
      simpa [ List.isPrefixOf_iff_prefix] using h0
    simp only [findAux, hp, if_false]
    apply ih (i + 1)
    intro m
    have := h (m + 1)
    simpa using this

lemma pyFind_some {s sub : Str} {start j : Nat} (hs : sub ≠ [])
    (h : pyFind s sub start = some j) :
    start ≤ j ∧ j < s.length ∧ sub <+: s.drop j ∧
      ∀ i, start ≤ i → i < j → ¬ sub <+: s.drop i := by
  obtain ⟨h1, h2, h3, h4⟩ := findAux_some hs _ _ _ h
  rw [List.length_drop] at h2
  rw [List.drop_drop] at h3
  have he : start + (j - start) = j := by omega
  rw [he] at h3
  refine ⟨h1, by omega, h3, ?_⟩
  intro i hi1 hi2
  have := h4 (i - start) (by omega)
  rw [List.drop_drop] at this
  have he2 : start + (i - start) = i := by omega
  rwa [he2] at this

lemma pyFind_intro_some {s sub : Str} {start j : Nat} (hs : sub ≠ []) (hij : start ≤ j)
    (hpre : sub <+: s.drop j) (hmin : ∀ i, start ≤ i → i < j → ¬ sub <+: s.drop i) :
    pyFind s sub start = some j := by
  apply findAux_intro_some hs _ _ _ hij
  · rw [List.drop_drop]
    have he : start + (j - start) = j := by omega
    rwa [he]
  · intro m hm
    rw [List.drop_drop]
    exact hmin (start + m) (by omega) (by omega)

lemma pyFind_intro_none {s sub : Str} {start : Nat}
    (h : ∀ i, start ≤ i → ¬ sub <+: s.drop i) : pyFind s sub start = none := by
  apply findAux_intro_none
  intro m
  rw [List.drop_drop]
  exact h (start + m) (by omega)

lemma pyFind_none {s sub : Str} {start : Nat} (hs : sub ≠ [])
    (h : pyFind s sub start = none) : ∀ i, start ≤ i → ¬ sub <+: s.drop i := by
  intro i hi
  have := findAux_none hs _ _ h (i - start)
  rw [List.drop_drop] at this
  have he : start + (i - start) = i := by omega
  rwa [he] at this

/-! ### Structure of the `re.sub` model -/

lemma reSubAux_skip (pat : Str) (f : Str → Nat → Str) :
    ∀ (t : Str) (pos k : Nat),
      reSubAux pat f t pos k = reSubAux pat f (t.drop k) (pos + k) 0 := by
  intro t
  induction t with
  | nil => intro pos k; simp [reSubAux]
  | cons c cs ih =>
    intro pos k
    cases k with
    | zero => simp
    | succ k' =>
      show reSubAux pat f cs (pos + 1) k' = _
      rw [ih (pos + 1) k']
      have he : pos + 1 + k' = pos + (k' + 1) := by omega
      rw [he, List.drop_succ_cons]

lemma reSubAux_no_match (f : Str → Nat → Str) :
    ∀ (t : Str) (pos : Nat), (∀ i, ¬ pattern <+: t.drop i) →
      reSubAux pattern f t pos 0 = t := by
  intro t
  induction t with
  | nil => intro pos _; simp [reSubAux]
  | cons c cs ih =>
    intro pos h
    have h0 : ¬ pattern.isPrefixOf (c :: cs) = true := by
      have := h 0
      rw [List.drop_zero] at this
      simpa [ List.isPrefixOf_iff_prefix] using this
    show (if pattern.isPrefixOf (c :: cs) then _ else _) = c :: cs
    rw [if_neg h0, ih (pos + 1)]
    intro i
    have := h (i + 1)
    simpa using this

lemma reSubAux_step (f : Str → Nat → Str) :
    ∀ (a b : Str) (pos : Nat),
      (∀ i, i < a.length → ¬ pattern <+: (a ++ pattern ++ b).drop i) →
      reSubAux pattern f (a ++ pattern ++ b) pos 0
        = a ++ f pattern (pos + a.length + pattern.length)
            ++ reSubAux pattern f b (pos + a.length + pattern.length) 0 := by
  intro a
  induction a with
  | nil =>
    intro b pos _
    have hp : pattern = 's' :: pattern.tail := by decide
    rw [List.nil_append]
    conv_lhs => rw [hp, List.cons_append]
    show (if pattern.isPrefixOf ('s' :: (pattern.tail ++ b)) then
        f pattern (pos + pattern.length)
          ++ reSubAux pattern f (pattern.tail ++ b) (pos + 1) (pattern.length - 1)
      else _) = _
    have hpre : pattern.isPrefixOf ('s' :: (pattern.tail ++ b)) = true := by
      rw [← List.cons_append, ← hp]
      exact List.isPrefixOf_iff_prefix.mpr (List.prefix_append _ _)
    rw [if_pos hpre, reSubAux_skip]
    have h1 : (pattern.tail ++ b).drop (pattern.length - 1) = b := by
      have ht : pattern.tail.length = pattern.length - 1 := List.length_tail _
      rw [← ht, List.drop_left]
    have h2 : pos + 1 + (pattern.length - 1) = pos + pattern.length := by
      have := pattern_length
      omega
    rw [h1, h2]
    simp

  | cons c a' ih =>
    intro b pos h
    have hcons : (c :: a') ++ pattern ++ b = c :: (a' ++ pattern ++ b) := by
      simp
    rw [hcons]
    have h0 : ¬ pattern.isPrefixOf (c :: (a' ++ pattern ++ b)) = true := by
      have := h 0 (by simp)
      rw [hcons] at this
      rw [List.drop_zero] at this
      simpa [ List.isPrefixOf_iff_prefix] using this
    show (if pattern.isPrefixOf (c :: (a' ++ pattern ++ b)) then _ else
        c :: reSubAux pattern f (a' ++ pattern ++ b) (pos + 1) 0) = _
    rw [if_neg h0]
    rw [ih b (pos + 1) ?_]
    · have he : pos + 1 + a'.length = pos + (c :: a').length := by simp; omega
      rw [he]
      simp
    · intro i hi
      have := h (i + 1) (by simp; omega)
      rw [hcons] at this
      simpa using this

/-! ### Decidable facts about the fixed strings -/

lemma replPost_no_s : ∀ i, i < replPost.length → replPost[i]? ≠ some 's' := by decide

lemma pattern_head_s : pattern[0]? = some 's' := by decide

lemma pattern_no_newline : ∀ k, k < pattern.length → pattern[k]? ≠ some '\n' := by decide

lemma pattern_semi_42 : pattern[42]? = some ';' := by decide

lemma dropPat_not_prefix_replPre : ∀ k, k < pattern.length → ¬ pattern.drop k <+: replPre := by
  decide

lemma pat_not_in_replPre : ∀ t, t < replPre.length → ¬ pattern <+: replPre.drop t := by decide

lemma dropPat_not_prefix_respLex : ∀ k, k < pattern.length → ¬ pattern.drop k <+: respLex := by
  decide

lemma respLex_not_prefix_dropPat : ∀ k, k < pattern.length → ¬ respLex <+: pattern.drop k := by
  decide

lemma replPre_long : pattern.length ≤ replPre.length := by decide

lemma replPost_head_nl : replPost[0]? = some '\n' := by decide

lemma respLex_no_semi : ∀ m, m < respLex.length → respLex[m]? ≠ some ';' := by decide

lemma respLex_length : respLex.length = 10 := by decide

lemma semi_eq : semi = [';'] := by decide

lemma replPost_pos : 0 < replPost.length := by decide

/-! ### Region lemmas: the anchor cannot start inside the synthesized block -/

lemma noOcc_iff_not_occurs {s : Str} : NoOcc s ↔ ¬ pattern <:+: s := by
  rw [infix_iff_drop]
  constructor
  · rintro h ⟨t, ht⟩
    exact h t ht
  · intro h t ht
    exact h ⟨t, ht⟩

lemma noOcc_append {x tail : Str} (hx : NoStartIn x tail) (ht : NoOcc tail) :
    NoOcc (x ++ tail) := by
  intro t
  by_cases h : t < x.length
  · exact hx t h
  · rw [List.drop_append_eq_append_drop, List.drop_eq_nil_of_le (by omega), List.nil_append]
    exact ht _

lemma prefix_take_of_le {p l : Str} {n : Nat} (h : p <+: l) (hn : p.length ≤ n) :
    p <+: l.take n := by
  rw [List.prefix_iff_eq_take] at h ⊢
  rw [List.take_take]
  rwa [Nat.min_eq_left hn]

lemma noStartIn_no_s {x : Str} (hx : ∀ i, i < x.length → x[i]? ≠ some 's') (tail : Str) :
    NoStartIn x tail := by
  intro t ht hpre
  have h1 := prefix_getElem? hpre (show 0 < pattern.length by decide)
  rw [List.getElem?_drop, pattern_head_s] at h1
  rw [List.getElem?_append, if_pos (by omega : t + 0 < x.length)] at h1
  exact hx (t + 0) (by omega) h1

lemma noStartIn_stmt {stmt tail : Str}
    (hsf : ∀ m, m + 1 < stmt.length → stmt[m]? ≠ some ';')
    (htl : tail[0]? = some '\n') : NoStartIn stmt tail := by
  intro t ht hpre
  have h69 := pattern_length
  rw [List.drop_append_eq_append_drop, Nat.sub_eq_zero_of_le (by omega),
    List.drop_zero] at hpre
  by_cases hfit : t + pattern.length ≤ stmt.length
  · have hp2 : pattern <+: stmt.drop t :=
      prefix_append_of_le hpre (by rw [List.length_drop]; omega)
    have h42 : (stmt.drop t)[42]? = pattern[42]? := prefix_getElem? hp2 (by omega)
    rw [List.getElem?_drop, pattern_semi_42] at h42
    exact hsf (t + 42) (by omega) h42
  · have hk1 : stmt.length - t < pattern.length := by omega
    have hkpos : 0 < stmt.length - t := by omega
    have hchar : (stmt.drop t ++ tail)[stmt.length - t]? = pattern[stmt.length - t]? :=
      prefix_getElem? hpre hk1
    rw [List.getElem?_append_right (by rw [List.length_drop])] at hchar
    rw [List.length_drop] at hchar
    rw [Nat.sub_self, htl] at hchar
    exact pattern_no_newline _ hk1 hchar.symm

lemma noStartIn_replPre {stmt tail : Str} (hhead : respLex <+: stmt) :
    NoStartIn replPre (stmt ++ tail) := by
  intro t ht hpre
  have h69 := pattern_length
  have h10 := respLex_length
  rw [List.drop_append_eq_append_drop, Nat.sub_eq_zero_of_le (by omega),
    List.drop_zero] at hpre
  by_cases hfit : t + pattern.length ≤ replPre.length
  · have hp2 : pattern <+: replPre.drop t :=
      prefix_append_of_le hpre (by rw [List.length_drop]; omega)
    exact pat_not_in_replPre t ht hp2
  · have hsplit := prefix_split hpre (by rw [List.length_drop]; omega)
    have h2 := hsplit.2
    rw [List.length_drop] at h2
    obtain ⟨srest, hsrest⟩ := hhead
    rw [← hsrest, List.append_assoc] at h2
    have hklt : replPre.length - t < pattern.length := by omega
    by_cases hk10 : pattern.length - (replPre.length - t) ≤ respLex.length
    · have h3 : pattern.drop (replPre.length - t) <+: respLex :=
        prefix_append_of_le h2 (by rw [List.length_drop]; omega)
      exact dropPat_not_prefix_respLex _ hklt h3
    · have h3 : respLex <+: pattern.drop (replPre.length - t) :=
        (prefix_split h2 (by rw [List.length_drop]; omega)).1
      exact respLex_not_prefix_dropPat _ hklt h3

lemma noOcc_of_self {u : Str} (h1 : ∀ i, i < u.length → ¬ pattern <+: u.drop i) :
    NoOcc u := by
  intro t hpre
  by_cases htu : t < u.length
  · exact h1 t htu hpre
  · rw [List.drop_eq_nil_of_le (by omega)] at hpre
    exact pattern_ne_nil (List.prefix_nil.mp hpre)

/-- Master lemma: scanning `rest` (a suffix of `content` starting at `pos`,
with `u` the not-yet-matchable text already emitted), if every anchor match
in `rest` passes both `find` checks then no anchor occurrence survives in
the output. -/
lemma patch_noOcc_aux (content : Str) :
    ∀ (n : Nat) (rest : Str) (pos : Nat) (u : Str),
      rest.length ≤ n →
      content.drop pos = rest →
      (∀ i, i < u.length → ¬ pattern <+: (u ++ rest).drop i) →
      (∀ i, pattern <+: rest.drop i → wfAt content (pos + i + pattern.length) = true) →
      NoOcc (u ++ reSubAux pattern (replace_user_id content) rest pos 0) := by
  intro n
  induction n with
  | zero =>
    intro rest pos u hn _ h1 _
    have hrest : rest = [] := List.eq_nil_of_length_eq_zero (by omega)
    subst hrest
    have hz : u ++ reSubAux pattern (replace_user_id content) [] pos 0 = u := by
      simp [reSubAux]
    rw [hz]
    apply noOcc_of_self
    intro i hi
    have := h1 i hi
    simpa using this
  | succ n ih =>
    intro rest pos u hn hinv h1 h3
    have h69 := pattern_length
    cases rest with
    | nil =>
      have hz : u ++ reSubAux pattern (replace_user_id content) [] pos 0 = u := by
        simp [reSubAux]
      rw [hz]
      apply noOcc_of_self
      intro i hi
      have := h1 i hi
      simpa using this
    | cons c cs =>
      by_cases hp : pattern.isPrefixOf (c :: cs) = true
      · -- a match starts here; both find checks succeed by well-formedness
        have hpre0 : pattern <+: (c :: cs) := List.isPrefixOf_iff_prefix.mp hp
        have hwf := h3 0 (by rw [List.drop_zero]; exact hpre0)
        rw [Nat.add_zero] at hwf
        rcases hfj : pyFind content respLex (pos + pattern.length) with _ | j
        · exfalso
          unfold wfAt at hwf
          rw [hfj] at hwf
          exact Bool.noConfusion hwf
        rcases hfk : pyFind content semi j with _ | k
        · exfalso
          unfold wfAt at hwf
          rw [hfj] at hwf
          have hwf2 : (pyFind content semi j).isSome = true := hwf
          rw [hfk] at hwf2
          exact Bool.noConfusion hwf2
        obtain ⟨hej, hjlen, hjpre, hjmin⟩ := pyFind_some respLex_ne_nil hfj
        obtain ⟨hjk, hklen, hkpre, hkmin⟩ := pyFind_some semi_ne_nil hfk
        rw [semi_eq, singleton_prefix_iff, List.getElem?_drop, Nat.add_zero] at hkpre
        have h10 := respLex_length
        have hjk10 : j + respLex.length ≤ k := by
          by_contra hcon
          push_neg at hcon
          have h5 : (content.drop j)[k - j]? = respLex[k - j]? :=
            prefix_getElem? hjpre (by omega)
          rw [List.getElem?_drop] at h5
          have he : j + (k - j) = k := by omega
          rw [he, hkpre] at h5
          exact respLex_no_semi (k - j) (by omega) h5.symm
        set stmt := pySlice content j (k + 1) with hstmt
        have hstmtlen : stmt.length = k + 1 - j := by
          rw [hstmt]
          simp only [pySlice, List.length_take, List.length_drop]
          omega
        have hstmtget : ∀ m, m < k + 1 - j → stmt[m]? = content[j + m]? := by
          intro m hm
          rw [hstmt]
          simp only [pySlice]
          rw [List.getElem?_take, if_pos hm, List.getElem?_drop]
        have hsf : ∀ m, m + 1 < stmt.length → stmt[m]? ≠ some ';' := by
          intro m hm
          rw [hstmtget m (by omega)]
          have hmin := hkmin (j + m) (by omega) (by omega)
          rw [semi_eq, singleton_prefix_iff, List.getElem?_drop, Nat.add_zero] at hmin
          exact hmin
        have hhead : respLex <+: stmt := by
          rw [hstmt]
          simp only [pySlice]
          exact prefix_take_of_le hjpre (by omega)
        have hinv' : content.drop (pos + pattern.length)
            = cs.drop (pattern.length - 1) := by
          rw [← List.drop_drop, hinv, h69]
          show (c :: cs).drop (68 + 1) = cs.drop 68
          rw [List.drop_succ_cons]
        have hout : reSubAux pattern (replace_user_id content) (c :: cs) pos 0
            = (replPre ++ stmt ++ replPost)
              ++ reSubAux pattern (replace_user_id content)
                  (cs.drop (pattern.length - 1)) (pos + pattern.length) 0 := by
          show (if pattern.isPrefixOf (c :: cs) then
              replace_user_id content pattern (pos + pattern.length)
                ++ reSubAux pattern (replace_user_id content) cs (pos + 1)
                    (pattern.length - 1)
            else _) = _
          rw [if_pos hp, reSubAux_skip]
          have he2 : pos + 1 + (pattern.length - 1) = pos + pattern.length := by omega
          rw [he2]
          congr 1
          unfold replace_user_id
          simp only [hfj]
          simp only [hfk]
        rw [hout]
        set OUT := reSubAux pattern (replace_user_id content)
            (cs.drop (pattern.length - 1)) (pos + pattern.length) 0 with hOUT
        have hIH : NoOcc (replPost ++ OUT) := by
          rw [hOUT]
          apply ih (cs.drop (pattern.length - 1)) (pos + pattern.length) replPost
          · rw [List.length_drop]
            simp only [List.length_cons] at hn
            omega
          · exact hinv'
          · exact noStartIn_no_s replPost_no_s _
          · intro i hpre2
            have hdd : (cs.drop (pattern.length - 1)).drop i
                = content.drop (pos + pattern.length + i) := by
              rw [← hinv', List.drop_drop]
            rw [hdd] at hpre2
            have hro : content.drop (pos + pattern.length + i)
                = (c :: cs).drop (pattern.length + i) := by
              rw [← hinv, List.drop_drop]
              congr 1
              omega
            rw [hro] at hpre2
            have := h3 (pattern.length + i) hpre2
            have he3 : pos + (pattern.length + i) + pattern.length
                = pos + pattern.length + i + pattern.length := by omega
            rwa [he3] at this
        have htl : (replPost ++ OUT)[0]? = some '\n' := by
          rw [List.getElem?_append, if_pos replPost_pos]
          exact replPost_head_nl
        have hA2 : NoOcc (stmt ++ (replPost ++ OUT)) :=
          noOcc_append (noStartIn_stmt hsf htl) hIH
        have hA3 : NoOcc (replPre ++ (stmt ++ (replPost ++ OUT))) :=
          noOcc_append (noStartIn_replPre hhead) hA2
        have hA4 : NoStartIn u (replPre ++ (stmt ++ (replPost ++ OUT))) := by
          intro t ht hpre2
          rw [List.drop_append_eq_append_drop, Nat.sub_eq_zero_of_le (by omega),
            List.drop_zero] at hpre2
          by_cases hfit : t + pattern.length ≤ u.length
          · have hp2 : pattern <+: u.drop t :=
              prefix_append_of_le hpre2 (by rw [List.length_drop]; omega)
            refine h1 t ht ?_
            rw [List.drop_append_eq_append_drop, Nat.sub_eq_zero_of_le (by omega),
              List.drop_zero]
            exact hp2.trans (List.prefix_append _ _)
          · have h2 := (prefix_split hpre2 (by rw [List.length_drop]; omega)).2
            rw [List.length_drop] at h2
            have h3' : pattern.drop (u.length - t) <+: replPre :=
              prefix_append_of_le h2
                (by rw [List.length_drop]; have := replPre_long; omega)
            exact dropPat_not_prefix_replPre _ (by omega) h3'
        have final := noOcc_append hA4 hA3
        have heq : u ++ ((replPre ++ stmt ++ replPost) ++ OUT)
            = u ++ (replPre ++ (stmt ++ (replPost ++ OUT))) := by
          simp [List.append_assoc]
        rw [heq]
        exact final
      · -- no match at this position: emit the character and continue
        have hout : reSubAux pattern (replace_user_id content) (c :: cs) pos 0
            = c :: reSubAux pattern (replace_user_id content) cs (pos + 1) 0 := by
          show (if pattern.isPrefixOf (c :: cs) then _ else
              c :: reSubAux pattern (replace_user_id content) cs (pos + 1) 0) = _
          rw [if_neg (by simpa using hp)]
        rw [hout]
        have heq : u ++ (c :: reSubAux pattern (replace_user_id content) cs (pos + 1) 0)
            = (u ++ [c]) ++ reSubAux pattern (replace_user_id content) cs (pos + 1) 0 := by
          simp
        rw [heq]
        apply ih cs (pos + 1) (u ++ [c])
        · simp only [List.length_cons] at hn
          omega
        · rw [← List.drop_drop, hinv]
          rfl
        · intro i hi
          have hcons : (u ++ [c]) ++ cs = u ++ (c :: cs) := by simp
          rw [hcons]
          simp only [List.length_append, List.length_cons, List.length_nil] at hi
          rcases Nat.lt_or_ge i u.length with hlt | hge
          · exact h1 i hlt
          · have hieq : i = u.length := by omega
            subst hieq
            rw [List.drop_left]
            simpa [ List.isPrefixOf_iff_prefix] using hp
        · intro i hpre2
          have hd : cs.drop i = (c :: cs).drop (i + 1) := by
            rw [List.drop_succ_cons]
          rw [hd] at hpre2
          have := h3 (i + 1) hpre2
          have he3 : pos + (i + 1) + pattern.length
              = pos + 1 + i + pattern.length := by omega
          rwa [he3] at this

/-! ### Locating a well-formed `response = "<literal>";` statement -/

lemma mem_of_getElem?_some {l : Str} {n : Nat} {a : Char} (h : l[n]? = some a) : a ∈ l := by
  obtain ⟨hlt, he⟩ := List.getElem?_eq_some.mp h
  exact he ▸ List.getElem_mem hlt

lemma respHead_no_semi : ∀ m, m < respHead.length → respHead[m]? ≠ some ';' := by decide

lemma respLex_prefix_respHead : respLex <+: respHead := by decide

lemma respHead_length : respHead.length = 12 := by decide

lemma respClose_eq : respClose = ['"', ';'] := by decide

lemma stmtOf_length (lit : Str) : (stmtOf lit).length = 14 + lit.length := by
  have h12 := respHead_length
  have h2 : respClose.length = 2 := by decide
  simp only [stmtOf, List.length_append]
  omega

lemma drop_concat_right (x y : Str) (i : Nat) : (x ++ y).drop (x.length + i) = y.drop i := by
  rw [← List.drop_drop, List.drop_left]

lemma stmtOf_getElem_ne_semi {lit : Str} (hlit : ∀ c ∈ lit, c ≠ ';') (m : Nat)
    (hm : m < 13 + lit.length) : (stmtOf lit)[m]? ≠ some ';' := by
  have h12 := respHead_length
  have hassoc : stmtOf lit = respHead ++ (lit ++ respClose) := by
    simp [stmtOf, List.append_assoc]
  rw [hassoc, List.getElem?_append]
  by_cases hm12 : m < respHead.length
  · rw [if_pos hm12]
    exact respHead_no_semi m hm12
  · rw [if_neg hm12]
    rw [List.getElem?_append]
    by_cases hml : m - respHead.length < lit.length
    · rw [if_pos hml]
      intro hlitc
      exact hlit ';' (mem_of_getElem?_some hlitc) rfl
    · rw [if_neg hml]
      have hz : m - respHead.length - lit.length = 0 := by omega
      rw [hz, respClose_eq]
      simp

lemma find_stmt {content A post' lit : Str}
    (hA : content = A ++ stmtOf lit ++ post')
    (hlit : ∀ c ∈ lit, c ≠ ';')
    (e : Nat) (he : e ≤ A.length)
    (hno : ∀ i, e ≤ i → i < A.length → ¬ respLex <+: content.drop i) :
    pyFind content respLex e = some A.length ∧
      pyFind content semi A.length = some (A.length + (13 + lit.length)) ∧
      pySlice content A.length (A.length + (13 + lit.length) + 1) = stmtOf lit := by
  have h12 := respHead_length
  have hdropA : content.drop A.length = stmtOf lit ++ post' := by
    rw [hA, List.append_assoc, List.drop_left]
  refine ⟨?_, ?_, ?_⟩
  · apply pyFind_intro_some respLex_ne_nil he
    · rw [hdropA]
      have hx : stmtOf lit ++ post' = respHead ++ (lit ++ respClose ++ post') := by
        simp [stmtOf, List.append_assoc]
      rw [hx]
      exact respLex_prefix_respHead.trans (List.prefix_append _ _)
    · exact hno
  · apply pyFind_intro_some semi_ne_nil (by omega)
    · have hx2 : content = (A ++ respHead ++ lit ++ ['"']) ++ (';' :: post') := by
        rw [hA]
        simp [stmtOf, respClose_eq, List.append_assoc]
      have hlen2 : (A ++ respHead ++ lit ++ ['"']).length = A.length + (13 + lit.length) := by
        simp only [List.length_append, List.length_cons, List.length_nil]
        omega
      rw [hx2, ← hlen2, List.drop_left, semi_eq]
      exact ⟨post', rfl⟩
    · intro i hi1 hi2
      rw [semi_eq, singleton_prefix_iff, List.getElem?_drop, Nat.add_zero]
      rw [hA, List.append_assoc, List.getElem?_append_right (by omega)]
      rw [List.getElem?_append, if_pos (by rw [stmtOf_length]; omega)]
      exact stmtOf_getElem_ne_semi hlit (i - A.length) (by omega)
  · have hlen3 : A.length + (13 + lit.length) + 1 - A.length = (stmtOf lit).length := by
      rw [stmtOf_length]
      omega
    simp only [pySlice, hdropA, hlen3]
    exact List.take_left _ _

/-- Decomposition of the patched output for a single well-formed anchor
occurrence: the matched span is replaced by the synthesized block and
everything else is reproduced verbatim. -/
lemma patch_single_eq {pre mid lit post content : Str}
    (hc : content = pre ++ pattern ++ mid ++ stmtOf lit ++ post)
    (h1 : ∀ i, pattern <+: content.drop i → i = pre.length)
    (h2 : ∀ i, pre.length + pattern.length ≤ i →
      i < pre.length + pattern.length + mid.length → ¬ respLex <+: content.drop i)
    (hlit : ∀ c ∈ lit, c ≠ ';') :
    patch content
      = pre ++ (replPre ++ stmtOf lit ++ replPost) ++ mid ++ stmtOf lit ++ post := by
  subst hc
  have h69 := pattern_length
  have hsh : pre ++ pattern ++ mid ++ stmtOf lit ++ post
      = pre ++ pattern ++ (mid ++ stmtOf lit ++ post) := by
    simp [List.append_assoc]
  have hsh2 : pre ++ pattern ++ mid ++ stmtOf lit ++ post
      = (pre ++ pattern ++ mid) ++ stmtOf lit ++ post := by
    simp [List.append_assoc]
  have hA : (pre ++ pattern ++ mid).length
      = pre.length + pattern.length + mid.length := by
    simp only [List.length_append]
  have hno : ∀ i, pre.length + pattern.length ≤ i →
      i < (pre ++ pattern ++ mid).length →
      ¬ respLex <+: (pre ++ pattern ++ mid ++ stmtOf lit ++ post).drop i := by
    intro i hi1 hi2
    rw [hA] at hi2
    exact h2 i hi1 hi2
  obtain ⟨hfj, hfk, hslice⟩ := find_stmt hsh2 hlit
    (pre.length + pattern.length) (by rw [hA]; omega) hno
  rw [hA] at hfj hfk hslice
  have hpre' : ∀ i, i < pre.length →
      ¬ pattern <+: (pre ++ pattern ++ (mid ++ stmtOf lit ++ post)).drop i := by
    intro i hi hpre
    rw [← hsh] at hpre
    exact absurd (h1 i hpre) (by omega)
  have hstep := reSubAux_step
    (replace_user_id (pre ++ pattern ++ mid ++ stmtOf lit ++ post))
    pre (mid ++ stmtOf lit ++ post) 0 hpre'
  rw [hsh] at hstep
  unfold patch
  conv_lhs => rw [hsh]
  rw [hstep]
  have htail : reSubAux pattern
      (replace_user_id (pre ++ pattern ++ mid ++ stmtOf lit ++ post))
      (mid ++ stmtOf lit ++ post) (0 + pre.length + pattern.length) 0
      = mid ++ stmtOf lit ++ post := by
    apply reSubAux_no_match
    intro i hpre
    have hx : ((pre ++ pattern) ++ (mid ++ stmtOf lit ++ post)).drop
        ((pre ++ pattern).length + i) = (mid ++ stmtOf lit ++ post).drop i :=
      drop_concat_right _ _ i
    rw [← hx] at hpre
    have hsh3 : (pre ++ pattern) ++ (mid ++ stmtOf lit ++ post)
        = pre ++ pattern ++ mid ++ stmtOf lit ++ post := by
      simp [List.append_assoc]
    rw [hsh3] at hpre
    have := h1 _ hpre
    simp only [List.length_append] at this
    omega
  rw [hsh] at htail
  rw [htail]
  have hval : replace_user_id (pre ++ pattern ++ mid ++ stmtOf lit ++ post)
      pattern (0 + pre.length + pattern.length)
      = replPre ++ stmtOf lit ++ replPost := by
    unfold replace_user_id
    rw [Nat.zero_add]
    simp only [hfj]
    simp only [hfk]
    rw [hslice]
  rw [hsh] at hval
  rw [hval]
  simp [List.append_assoc]

/-! ### Claim theorems -/

/-- C2: for every input text with zero occurrences of the anchor pattern,
`patch` returns the text byte-for-byte unchanged (pattern-not-found is a
no-op, not an error). -/
theorem c2_noop (content : Str)
    (h : ∀ i, i < content.length → ¬ pattern <+: content.drop i) :
    patch content = content := by
  apply reSubAux_no_match
  intro i
  by_cases hi : i < content.length
  · exact h i hi
  · rw [List.drop_eq_nil_of_le (by omega)]
    intro hpre
    exact pattern_ne_nil (List.prefix_nil.mp hpre)

theorem c2_witness :
    (∀ i, i < (strOf "int main() \x7b return 0; \x7d").length →
      ¬ pattern <+: (strOf "int main() \x7b return 0; \x7d").drop i) ∧
    patch (strOf "int main() \x7b return 0; \x7d") = strOf "int main() \x7b return 0; \x7d" :=
  ⟨by decide, c2_noop _ (by decide)⟩

/-- C9: the content written back is exactly
`re.sub(pattern, replace_user_id, content)`: the preliminary
`content.replace` of line 21 is shadowed by the line-50 reassignment and has
no effect on the written output. -/
theorem c9_written_is_resub (content : Str) :
    scriptWritten content = reSubAux pattern (replace_user_id content) content 0 0 ∧
    scriptWritten content = patch content ∧
    (runScript (Except.ok content : Except Unit Str) (Except.ok ())).1
      = [Effect.wroteFile (reSubAux pattern (replace_user_id content) content 0 0),
        Effect.printedMsg ackMsg] :=
  ⟨rfl, rfl, rfl⟩

/-- C8: a read failure propagates and produces no write and no
acknowledgment; the acknowledgment appears only in a trace where the read
and the write both succeeded, and then the write of the transformed content
precedes it. -/
theorem c8_io_failure :
    (∀ (ε : Type) (e : ε) (w : Except ε Unit), runScript (Except.error e) w = ([], some e)) ∧
    (∀ (ε : Type) (r : Except ε Str) (w : Except ε Unit),
      Effect.printedMsg ackMsg ∈ (runScript r w).1 →
      ∃ c, r = Except.ok c ∧ w = Except.ok () ∧
        (runScript r w).1
          = [Effect.wroteFile (scriptWritten c), Effect.printedMsg ackMsg]) := by
  constructor
  · intro ε e w
    rfl
  · intro ε r w hmem
    cases r with
    | error e => simp [runScript] at hmem
    | ok c =>
      cases w with
      | error e => simp [runScript] at hmem
      | ok u => exact ⟨c, rfl, rfl, rfl⟩

theorem c8_witness :
    Effect.printedMsg ackMsg
        ∈ (runScript (Except.ok ([] : Str)) (Except.ok () : Except Nat Unit)).1 ∧
    (∃ c, (Except.ok ([] : Str) : Except Nat Str) = Except.ok c ∧
      (Except.ok () : Except Nat Unit) = Except.ok () ∧
      (runScript (Except.ok ([] : Str)) (Except.ok () : Except Nat Unit)).1
        = [Effect.wroteFile (scriptWritten c), Effect.printedMsg ackMsg]) := by
  have hm : Effect.printedMsg ackMsg
      ∈ (runScript (Except.ok ([] : Str)) (Except.ok () : Except Nat Unit)).1 := by
    decide
  exact ⟨hm, c8_io_failure.2 Nat _ _ hm⟩

/-- C5: for every transformed occurrence (both `find` calls succeed), the
captured statement — the slice of the original text from the found
`response =` through the found `;` inclusive — is spliced verbatim between
the else-branch opener and the closing brace of the synthesized block. -/
theorem c5_capture_verbatim (content : Str) (e j k : Nat)
    (hfj : pyFind content respLex e = some j)
    (hfk : pyFind content semi j = some k) :
    replace_user_id content pattern e
      = replPreA ++ elseOpen ++ pySlice content j (k + 1) ++ replPost := by
  unfold replace_user_id
  simp only [hfj]
  simp only [hfk]
  rw [replPre_factor]

theorem c5_witness :
    pyFind (strOf "ab" ++ stmtOf (strOf "x") ++ strOf "z") respLex 0 = some 2 ∧
    pyFind (strOf "ab" ++ stmtOf (strOf "x") ++ strOf "z") semi 2 = some 16 ∧
    replace_user_id (strOf "ab" ++ stmtOf (strOf "x") ++ strOf "z") pattern 0
      = replPreA ++ elseOpen
          ++ pySlice (strOf "ab" ++ stmtOf (strOf "x") ++ strOf "z") 2 (16 + 1)
          ++ replPost :=
  ⟨by decide, by decide, c5_capture_verbatim _ 0 2 16 (by decide) (by decide)⟩

/-- C6: the anchor pattern contains no regex metacharacter, and a span of
the input is an anchor occurrence exactly when the corresponding slice is
character-for-character the literal stub line. -/
theorem c6_literal_anchor :
    (∀ c ∈ pattern, c ∉ regexSpecials) ∧
    ∀ (s : Str) (i : Nat), pattern <+: s.drop i ↔
      pySlice s i (i + 69)
        = strOf "std::string user_id = \"authenticated_user\"; // TODO: Extract from JWT" := by
  constructor
  · decide
  · intro s i
    have hsl : pySlice s i (i + 69) = (s.drop i).take 69 := by
      simp [pySlice, Nat.add_sub_cancel_left]
    rw [List.prefix_iff_eq_take, pattern_length, hsl]
    exact ⟨fun h => h.symm, fun h => h.symm⟩

/-- C7: if every anchor occurrence in the input is well-formed (its two
`find` checks succeed), the patched output contains no occurrence of the
anchor pattern at all, so a second application of `patch` is a no-op. -/
theorem c7_idempotence (content : Str)
    (hwf : ∀ i, i < content.length → pattern <+: content.drop i →
      wfAt content (i + pattern.length) = true) :
    ¬ pattern <:+: patch content ∧ patch (patch content) = patch content := by
  have h3 : ∀ i, pattern <+: content.drop i →
      wfAt content (0 + i + pattern.length) = true := by
    intro i hpre
    rw [Nat.zero_add]
    by_cases hi : i < content.length
    · exact hwf i hi hpre
    · exfalso
      rw [List.drop_eq_nil_of_le (by omega)] at hpre
      exact pattern_ne_nil (List.prefix_nil.mp hpre)
  have hno : NoOcc (patch content) := by
    have hm := patch_noOcc_aux content content.length content 0 [] le_rfl rfl
      (by intro i hi; simp at hi) h3
    show NoOcc (reSubAux pattern (replace_user_id content) content 0 0)
    simpa using hm
  constructor
  · exact noOcc_iff_not_occurs.mp hno
  · show reSubAux pattern (replace_user_id (patch content)) (patch content) 0 0
        = patch content
    apply reSubAux_no_match
    intro i
    exact hno i

theorem c7_witness :
    (∀ i, i < (pattern ++ strOf " response = count; done").length →
      pattern <+: (pattern ++ strOf " response = count; done").drop i →
      wfAt (pattern ++ strOf " response = count; done") (i + pattern.length) = true) ∧
    (¬ pattern <:+: patch (pattern ++ strOf " response = count; done") ∧
      patch (patch (pattern ++ strOf " response = count; done"))
        = patch (pattern ++ strOf " response = count; done")) :=
  ⟨by decide, c7_idempotence _ (by decide)⟩

/-- C1: for a text with exactly one anchor occurrence followed (after
filler free of the `response =` lexeme) by a `response = "<literal>";`
statement, the output (a) no longer contains the stub line, (b) contains
the authentication call, (c) contains the empty-identity guard branch with
the unauthorized-error assignment, and (d) contains the original statement
verbatim inside the else branch. -/
theorem c1_single_match (pre mid lit post content : Str)
    (hc : content = pre ++ pattern ++ mid ++ stmtOf lit ++ post)
    (h1 : ∀ i, i < content.length → pattern <+: content.drop i → i = pre.length)
    (h2 : ∀ i, pre.length + pattern.length ≤ i →
      i < pre.length + pattern.length + mid.length → ¬ respLex <+: content.drop i)
    (hlit : ∀ c ∈ lit, c ≠ ';') :
    ¬ pattern <:+: patch content ∧
    strOf "authenticate_and_get_user_id(headers)" <:+: patch content ∧
    strOf "if (user_id.empty()) \x7b\n                        response = \"\x7b\"error\":\"Unauthorized: Invalid or missing authentication token\"\x7d\";" <:+: patch content ∧
    elseOpen ++ stmtOf lit ++ replPost <:+: patch content := by
  have h1' : ∀ i, pattern <+: content.drop i → i = pre.length := by
    intro i hpre
    by_cases hi : i < content.length
    · exact h1 i hi hpre
    · exfalso
      rw [List.drop_eq_nil_of_le (by omega)] at hpre
      exact pattern_ne_nil (List.prefix_nil.mp hpre)
  have heq := patch_single_eq hc h1' h2 hlit
  have hsh2 : content = (pre ++ pattern ++ mid) ++ stmtOf lit ++ post := by
    rw [hc]
  have hA : (pre ++ pattern ++ mid).length
      = pre.length + pattern.length + mid.length := by
    simp only [List.length_append]
  have hno' : ∀ i, pre.length + pattern.length ≤ i →
      i < (pre ++ pattern ++ mid).length → ¬ respLex <+: content.drop i := by
    intro i hi1 hi2
    rw [hA] at hi2
    exact h2 i hi1 hi2
  obtain ⟨hfj, hfk, _⟩ := find_stmt hsh2 hlit (pre.length + pattern.length)
    (by rw [hA]; omega) hno'
  have hwfe : wfAt content (pre.length + pattern.length) = true := by
    unfold wfAt
    simp only [hfj]
    simp only [hfk, Option.isSome_some]
  have h3 : ∀ i, pattern <+: content.drop i →
      wfAt content (0 + i + pattern.length) = true := by
    intro i hpre
    have hi := h1' i hpre
    subst hi
    rw [Nat.zero_add]
    exact hwfe
  refine ⟨?_, ?_, ?_, ?_⟩
  · have hm := patch_noOcc_aux content content.length content 0 [] le_rfl rfl
      (by intro i hi; simp at hi) h3
    have hno : NoOcc (patch content) := by
      show NoOcc (reSubAux pattern (replace_user_id content) content 0 0)
      simpa using hm
    exact noOcc_iff_not_occurs.mp hno
  · have hsub : strOf "authenticate_and_get_user_id(headers)" <:+: replPre := by decide
    apply hsub.trans
    exact ⟨pre, stmtOf lit ++ replPost ++ mid ++ stmtOf lit ++ post,
      by rw [heq]; simp [List.append_assoc]⟩
  · have hsub : strOf "if (user_id.empty()) \x7b\n                        response = \"\x7b\"error\":\"Unauthorized: Invalid or missing authentication token\"\x7d\";" <:+: replPre := by
      decide
    apply hsub.trans
    exact ⟨pre, stmtOf lit ++ replPost ++ mid ++ stmtOf lit ++ post,
      by rw [heq]; simp [List.append_assoc]⟩
  · exact ⟨pre ++ replPreA, mid ++ stmtOf lit ++ post,
      by rw [heq, replPre_factor]; simp [List.append_assoc]⟩

theorem c1_witness :
    (∀ i, i < (strOf "A\n" ++ pattern ++ strOf "\n" ++ stmtOf (strOf "ok") ++ strOf "\nZ").length →
      pattern <+: (strOf "A\n" ++ pattern ++ strOf "\n" ++ stmtOf (strOf "ok") ++ strOf "\nZ").drop i →
      i = (strOf "A\n").length) ∧
    (∀ i, (strOf "A\n").length + pattern.length ≤ i →
      i < (strOf "A\n").length + pattern.length + (strOf "\n").length →
      ¬ respLex <+: (strOf "A\n" ++ pattern ++ strOf "\n" ++ stmtOf (strOf "ok") ++ strOf "\nZ").drop i) ∧
    (∀ c ∈ strOf "ok", c ≠ ';') ∧
    (¬ pattern <:+: patch (strOf "A\n" ++ pattern ++ strOf "\n" ++ stmtOf (strOf "ok") ++ strOf "\nZ") ∧
      strOf "authenticate_and_get_user_id(headers)"
        <:+: patch (strOf "A\n" ++ pattern ++ strOf "\n" ++ stmtOf (strOf "ok") ++ strOf "\nZ") ∧
      strOf "if (user_id.empty()) \x7b\n                        response = \"\x7b\"error\":\"Unauthorized: Invalid or missing authentication token\"\x7d\";"
        <:+: patch (strOf "A\n" ++ pattern ++ strOf "\n" ++ stmtOf (strOf "ok") ++ strOf "\nZ") ∧
      elseOpen ++ stmtOf (strOf "ok") ++ replPost
        <:+: patch (strOf "A\n" ++ pattern ++ strOf "\n" ++ stmtOf (strOf "ok") ++ strOf "\nZ")) :=
  ⟨by decide, by decide, by decide,
    c1_single_match (strOf "A\n") (strOf "\n") (strOf "ok") (strOf "\nZ") _
      rfl (by decide) (by decide) (by decide)⟩

/-- C10: only the matched anchor span is rewritten.  For a transformed
occurrence the output is the input with just the anchor span replaced, so
the captured statement appears both inside the synthesized else branch and
at its original place; for a skipped occurrence (no `response =` after the
match) the whole text, matched span included, is reproduced unchanged. -/
theorem c10_frame :
    (∀ pre mid lit post content,
      content = pre ++ pattern ++ mid ++ stmtOf lit ++ post →
      (∀ i, i < content.length → pattern <+: content.drop i → i = pre.length) →
      (∀ i, pre.length + pattern.length ≤ i →
        i < pre.length + pattern.length + mid.length → ¬ respLex <+: content.drop i) →
      (∀ c ∈ lit, c ≠ ';') →
      patch content
        = pre ++ (replPre ++ stmtOf lit ++ replPost) ++ mid ++ stmtOf lit ++ post) ∧
    (∀ pre tail content,
      content = pre ++ pattern ++ tail →
      (∀ i, i < content.length → pattern <+: content.drop i → i = pre.length) →
      (∀ i, pre.length + pattern.length ≤ i → i < content.length →
        ¬ respLex <+: content.drop i) →
      patch content = pre ++ pattern ++ tail) := by
  constructor
  · intro pre mid lit post content hc h1 h2 hlit
    have h1' : ∀ i, pattern <+: content.drop i → i = pre.length := by
      intro i hpre
      by_cases hi : i < content.length
      · exact h1 i hi hpre
      · exfalso
        rw [List.drop_eq_nil_of_le (by omega)] at hpre
        exact pattern_ne_nil (List.prefix_nil.mp hpre)
    exact patch_single_eq hc h1' h2 hlit
  · intro pre tail content hc h1 h2
    subst hc
    have h1' : ∀ i, pattern <+: (pre ++ pattern ++ tail).drop i → i = pre.length := by
      intro i hpre
      by_cases hi : i < (pre ++ pattern ++ tail).length
      · exact h1 i hi hpre
      · exfalso
        rw [List.drop_eq_nil_of_le (by omega)] at hpre
        exact pattern_ne_nil (List.prefix_nil.mp hpre)
    have h2' : ∀ i, pre.length + pattern.length ≤ i →
        ¬ respLex <+: (pre ++ pattern ++ tail).drop i := by
      intro i hi
      by_cases hil : i < (pre ++ pattern ++ tail).length
      · exact h2 i hi hil
      · rw [List.drop_eq_nil_of_le (by omega)]
        intro hpre
        exact respLex_ne_nil (List.prefix_nil.mp hpre)
    have hstep := reSubAux_step
      (replace_user_id (pre ++ pattern ++ tail)) pre tail 0
      (fun i hi hpre => absurd (h1' i hpre) (by omega))
    unfold patch
    rw [hstep]
    have hfnone : pyFind (pre ++ pattern ++ tail) respLex
        (0 + pre.length + pattern.length) = none :=
      pyFind_intro_none (fun i hi => h2' i (by omega))
    have hval : replace_user_id (pre ++ pattern ++ tail) pattern
        (0 + pre.length + pattern.length) = pattern := by
      unfold replace_user_id
      simp only [hfnone]
    have htail : reSubAux pattern (replace_user_id (pre ++ pattern ++ tail)) tail
        (0 + pre.length + pattern.length) 0 = tail := by
      apply reSubAux_no_match
      intro i hpre
      have hx : ((pre ++ pattern) ++ tail).drop ((pre ++ pattern).length + i)
          = tail.drop i := drop_concat_right _ _ i
      rw [← hx] at hpre
      have := h1' _ hpre
      simp only [List.length_append] at this
      have h69 := pattern_length
      omega
    rw [hval, htail]

theorem c10_witness :
    ((∀ c ∈ strOf "y", c ≠ ';') ∧
      patch (strOf "Q" ++ pattern ++ strOf " " ++ stmtOf (strOf "y") ++ strOf "T")
        = strOf "Q" ++ (replPre ++ stmtOf (strOf "y") ++ replPost) ++ strOf " "
            ++ stmtOf (strOf "y") ++ strOf "T") ∧
    ((∀ i, (strOf "R").length + pattern.length ≤ i →
        i < (strOf "R" ++ pattern ++ strOf " no lexeme here").length →
        ¬ respLex <+: (strOf "R" ++ pattern ++ strOf " no lexeme here").drop i) ∧
      patch (strOf "R" ++ pattern ++ strOf " no lexeme here")
        = strOf "R" ++ pattern ++ strOf " no lexeme here") :=
  ⟨⟨by decide,
      c10_frame.1 (strOf "Q") (strOf " ") (strOf "y") (strOf "T") _
        rfl (by decide) (by decide) (by decide)⟩,
    ⟨by decide,
      c10_frame.2 (strOf "R") (strOf " no lexeme here") _
        rfl (by decide) (by decide)⟩⟩

/-- Decomposition of the patched output for two anchor occurrences: the
first is well-formed and transformed; the second is handed to
`replace_user_id` with the end offset of its own span, everything between
and after being reproduced verbatim. -/
lemma patch_two_anchor {pre mid lit q tail content : Str}
    (hc : content = pre ++ pattern ++ mid ++ stmtOf lit ++ q ++ pattern ++ tail)
    (h1 : ∀ i, pattern <+: content.drop i →
      i = pre.length ∨
        i = pre.length + pattern.length + mid.length + (stmtOf lit).length + q.length)
    (h2 : ∀ i, pre.length + pattern.length ≤ i →
      i < pre.length + pattern.length + mid.length → ¬ respLex <+: content.drop i)
    (hlit : ∀ c ∈ lit, c ≠ ';') :
    patch content
      = pre ++ (replPre ++ stmtOf lit ++ replPost) ++ mid ++ stmtOf lit ++ q
          ++ replace_user_id content pattern
              (pre.length + pattern.length + mid.length + (stmtOf lit).length
                + q.length + pattern.length)
          ++ tail := by
  subst hc
  have h69 := pattern_length
  have hsh1 : pre ++ pattern ++ mid ++ stmtOf lit ++ q ++ pattern ++ tail
      = pre ++ pattern ++ ((mid ++ stmtOf lit ++ q) ++ pattern ++ tail) := by
    simp [List.append_assoc]
  have hsh2 : pre ++ pattern ++ mid ++ stmtOf lit ++ q ++ pattern ++ tail
      = (pre ++ pattern ++ mid) ++ stmtOf lit ++ (q ++ pattern ++ tail) := by
    simp [List.append_assoc]
  have hno1 : ∀ i, pre.length + pattern.length ≤ i →
      i < (pre ++ pattern ++ mid).length →
      ¬ respLex <+: (pre ++ pattern ++ mid ++ stmtOf lit ++ q ++ pattern ++ tail).drop i := by
    intro i hi1 hi2
    simp only [List.length_append] at hi2
    exact h2 i hi1 hi2
  obtain ⟨hfj, hfk, hslice⟩ := find_stmt hsh2 hlit (pre.length + pattern.length)
    (by simp only [List.length_append]; omega) hno1
  have hpre1 : ∀ i, i < pre.length →
      ¬ pattern <+: (pre ++ pattern ++ ((mid ++ stmtOf lit ++ q) ++ pattern ++ tail)).drop i := by
    intro i hi hpre
    rw [← hsh1] at hpre
    rcases h1 i hpre with h | h <;> omega
  have hstep1 := reSubAux_step
    (replace_user_id (pre ++ pattern ++ ((mid ++ stmtOf lit ++ q) ++ pattern ++ tail)))
    pre ((mid ++ stmtOf lit ++ q) ++ pattern ++ tail) 0 hpre1
  unfold patch
  rw [hsh1]
  rw [hstep1]
  have hpre2 : ∀ i, i < (mid ++ stmtOf lit ++ q).length →
      ¬ pattern <+: ((mid ++ stmtOf lit ++ q) ++ pattern ++ tail).drop i := by
    intro i hi hpre
    have hx : ((pre ++ pattern) ++ ((mid ++ stmtOf lit ++ q) ++ pattern ++ tail)).drop
        ((pre ++ pattern).length + i)
        = ((mid ++ stmtOf lit ++ q) ++ pattern ++ tail).drop i :=
      drop_concat_right _ _ i
    rw [← hx] at hpre
    have hsh3 : (pre ++ pattern) ++ ((mid ++ stmtOf lit ++ q) ++ pattern ++ tail)
        = pre ++ pattern ++ mid ++ stmtOf lit ++ q ++ pattern ++ tail := by
      simp [List.append_assoc]
    rw [hsh3] at hpre
    have hor := h1 _ hpre
    simp only [List.length_append] at hor hi
    omega
  have hstep2 := reSubAux_step
    (replace_user_id (pre ++ pattern ++ ((mid ++ stmtOf lit ++ q) ++ pattern ++ tail)))
    (mid ++ stmtOf lit ++ q) tail (0 + pre.length + pattern.length) hpre2
  rw [hstep2]
  have htail : reSubAux pattern
      (replace_user_id (pre ++ pattern ++ ((mid ++ stmtOf lit ++ q) ++ pattern ++ tail)))
      tail (0 + pre.length + pattern.length + (mid ++ stmtOf lit ++ q).length
        + pattern.length) 0 = tail := by
    apply reSubAux_no_match
    intro i hpre
    have hx : ((pre ++ pattern ++ mid ++ stmtOf lit ++ q ++ pattern) ++ tail).drop
        ((pre ++ pattern ++ mid ++ stmtOf lit ++ q ++ pattern).length + i)
        = tail.drop i := drop_concat_right _ _ i
    rw [← hx] at hpre
    have hsh4 : (pre ++ pattern ++ mid ++ stmtOf lit ++ q ++ pattern) ++ tail
        = pre ++ pattern ++ mid ++ stmtOf lit ++ q ++ pattern ++ tail := by
      simp [List.append_assoc]
    rw [hsh4] at hpre
    have hor := h1 _ hpre
    simp only [List.length_append] at hor
    omega
  rw [htail]
  have hval1 : replace_user_id
      (pre ++ pattern ++ ((mid ++ stmtOf lit ++ q) ++ pattern ++ tail)) pattern
      (0 + pre.length + pattern.length)
      = replPre ++ stmtOf lit ++ replPost := by
    rw [← hsh1, Nat.zero_add]
    unfold replace_user_id
    simp only [hfj]
    simp only [hfk]
    rw [hslice]
  rw [hval1]
  have he2 : 0 + pre.length + pattern.length + (mid ++ stmtOf lit ++ q).length
      + pattern.length
      = pre.length + pattern.length + mid.length + (stmtOf lit).length
        + q.length + pattern.length := by
    simp only [List.length_append]
    omega
  rw [he2, ← hsh1]
  simp [List.append_assoc]

/-- C3: an anchor occurrence with no `response =` after its end offset, or
no `;` after the found `response =`, is skipped — its matched span is
reproduced unchanged — while a preceding well-formed occurrence is still
transformed; the function is total, so no error is raised. -/
theorem c3_skip_malformed (pre mid lit q tail content : Str)
    (hc : content = pre ++ pattern ++ mid ++ stmtOf lit ++ q ++ pattern ++ tail)
    (h1 : ∀ i, i < content.length → pattern <+: content.drop i →
      i = pre.length ∨
        i = pre.length + pattern.length + mid.length + (stmtOf lit).length + q.length)
    (h2 : ∀ i, pre.length + pattern.length ≤ i →
      i < pre.length + pattern.length + mid.length → ¬ respLex <+: content.drop i)
    (hlit : ∀ c ∈ lit, c ≠ ';')
    (hmal :
      (∀ i, pre.length + pattern.length + mid.length + (stmtOf lit).length + q.length
          + pattern.length ≤ i → i < content.length → ¬ respLex <+: content.drop i) ∨
      (∃ j, pyFind content respLex
          (pre.length + pattern.length + mid.length + (stmtOf lit).length + q.length
            + pattern.length) = some j ∧
        ∀ i, j ≤ i → i < content.length → ¬ semi <+: content.drop i)) :
    patch content
      = pre ++ (replPre ++ stmtOf lit ++ replPost) ++ mid ++ stmtOf lit ++ q
          ++ pattern ++ tail := by
  have h1' : ∀ i, pattern <+: content.drop i →
      i = pre.length ∨
        i = pre.length + pattern.length + mid.length + (stmtOf lit).length + q.length := by
    intro i hpre
    by_cases hi : i < content.length
    · exact h1 i hi hpre
    · exfalso
      rw [List.drop_eq_nil_of_le (by omega)] at hpre
      exact pattern_ne_nil (List.prefix_nil.mp hpre)
  have heq := patch_two_anchor hc h1' h2 hlit
  rw [heq]
  have hval : replace_user_id content pattern
      (pre.length + pattern.length + mid.length + (stmtOf lit).length + q.length
        + pattern.length) = pattern := by
    rcases hmal with hnone | ⟨j, hj, hsemi⟩
    · have hfnone : pyFind content respLex
          (pre.length + pattern.length + mid.length + (stmtOf lit).length + q.length
            + pattern.length) = none := by
        apply pyFind_intro_none
        intro i hi
        by_cases hil : i < content.length
        · exact hnone i hi hil
        · rw [List.drop_eq_nil_of_le (by omega)]
          intro hp
          exact respLex_ne_nil (List.prefix_nil.mp hp)
      unfold replace_user_id
      simp only [hfnone]
    · have hksnone : pyFind content semi j = none := by
        apply pyFind_intro_none
        intro i hi
        by_cases hil : i < content.length
        · exact hsemi i hi hil
        · rw [List.drop_eq_nil_of_le (by omega)]
          intro hp
          exact semi_ne_nil (List.prefix_nil.mp hp)
      unfold replace_user_id
      simp only [hj]
      simp only [hksnone]
  rw [hval]

theorem c3_witness :
    (∀ i, i < (strOf "A" ++ pattern ++ strOf " " ++ stmtOf (strOf "k") ++ strOf " Q " ++ pattern ++ strOf " end").length →
      pattern <+: (strOf "A" ++ pattern ++ strOf " " ++ stmtOf (strOf "k") ++ strOf " Q " ++ pattern ++ strOf " end").drop i →
      i = (strOf "A").length ∨
        i = (strOf "A").length + pattern.length + (strOf " ").length
          + (stmtOf (strOf "k")).length + (strOf " Q ").length) ∧
    (∀ i, (strOf "A").length + pattern.length ≤ i →
      i < (strOf "A").length + pattern.length + (strOf " ").length →
      ¬ respLex <+: (strOf "A" ++ pattern ++ strOf " " ++ stmtOf (strOf "k") ++ strOf " Q " ++ pattern ++ strOf " end").drop i) ∧
    (∀ c ∈ strOf "k", c ≠ ';') ∧
    (∀ i, (strOf "A").length + pattern.length + (strOf " ").length
        + (stmtOf (strOf "k")).length + (strOf " Q ").length + pattern.length ≤ i →
      i < (strOf "A" ++ pattern ++ strOf " " ++ stmtOf (strOf "k") ++ strOf " Q " ++ pattern ++ strOf " end").length →
      ¬ respLex <+: (strOf "A" ++ pattern ++ strOf " " ++ stmtOf (strOf "k") ++ strOf " Q " ++ pattern ++ strOf " end").drop i) ∧
    patch (strOf "A" ++ pattern ++ strOf " " ++ stmtOf (strOf "k") ++ strOf " Q " ++ pattern ++ strOf " end")
      = strOf "A" ++ (replPre ++ stmtOf (strOf "k") ++ replPost) ++ strOf " "
          ++ stmtOf (strOf "k") ++ strOf " Q " ++ pattern ++ strOf " end" :=
  ⟨by decide, by decide, by decide, by decide,
    c3_skip_malformed (strOf "A") (strOf " ") (strOf "k") (strOf " Q ") (strOf " end") _
      rfl (by decide) (by decide) (by decide) (Or.inl (by decide))⟩

/-- C4: two anchor occurrences, each followed before the next anchor by its
own `response = "<literal>";` statement, are both transformed, each
replacement embedding the statement belonging to that occurrence, and
neither transformation disturbs text belonging to the other. -/
theorem c4_two_occurrences (pre mid1 lit1 q mid2 lit2 post content : Str)
    (hc : content = pre ++ pattern ++ mid1 ++ stmtOf lit1 ++ q ++ pattern ++ mid2
      ++ stmtOf lit2 ++ post)
    (h1 : ∀ i, i < content.length → pattern <+: content.drop i →
      i = pre.length ∨
        i = pre.length + pattern.length + mid1.length + (stmtOf lit1).length + q.length)
    (h2a : ∀ i, pre.length + pattern.length ≤ i →
      i < pre.length + pattern.length + mid1.length → ¬ respLex <+: content.drop i)
    (h2b : ∀ i, pre.length + pattern.length + mid1.length + (stmtOf lit1).length
        + q.length + pattern.length ≤ i →
      i < pre.length + pattern.length + mid1.length + (stmtOf lit1).length
        + q.length + pattern.length + mid2.length → ¬ respLex <+: content.drop i)
    (hlit1 : ∀ c ∈ lit1, c ≠ ';') (hlit2 : ∀ c ∈ lit2, c ≠ ';') :
    patch content
      = pre ++ (replPre ++ stmtOf lit1 ++ replPost) ++ mid1 ++ stmtOf lit1 ++ q
          ++ (replPre ++ stmtOf lit2 ++ replPost) ++ mid2 ++ stmtOf lit2 ++ post := by
  have h1' : ∀ i, pattern <+: content.drop i →
      i = pre.length ∨
        i = pre.length + pattern.length + mid1.length + (stmtOf lit1).length + q.length := by
    intro i hpre
    by_cases hi : i < content.length
    · exact h1 i hi hpre
    · exfalso
      rw [List.drop_eq_nil_of_le (by omega)] at hpre
      exact pattern_ne_nil (List.prefix_nil.mp hpre)
  have hc' : content = pre ++ pattern ++ mid1 ++ stmtOf lit1 ++ q ++ pattern
      ++ (mid2 ++ stmtOf lit2 ++ post) := by
    rw [hc]
    simp [List.append_assoc]
  have heq := patch_two_anchor hc' h1' h2a hlit1
  rw [heq]
  have hshA : content = (pre ++ pattern ++ mid1 ++ stmtOf lit1 ++ q ++ pattern ++ mid2)
      ++ stmtOf lit2 ++ post := by
    rw [hc]
  have hA2len : (pre ++ pattern ++ mid1 ++ stmtOf lit1 ++ q ++ pattern ++ mid2).length
      = pre.length + pattern.length + mid1.length + (stmtOf lit1).length
        + q.length + pattern.length + mid2.length := by
    simp only [List.length_append]
  have hno2 : ∀ i, pre.length + pattern.length + mid1.length + (stmtOf lit1).length
      + q.length + pattern.length ≤ i →
      i < (pre ++ pattern ++ mid1 ++ stmtOf lit1 ++ q ++ pattern ++ mid2).length →
      ¬ respLex <+: content.drop i := by
    intro i hi1 hi2
    rw [hA2len] at hi2
    exact h2b i hi1 hi2
  obtain ⟨hfj2, hfk2, hslice2⟩ := find_stmt hshA hlit2
    (pre.length + pattern.length + mid1.length + (stmtOf lit1).length
      + q.length + pattern.length)
    (by rw [hA2len]; omega) hno2
  have hval2 : replace_user_id content pattern
      (pre.length + pattern.length + mid1.length + (stmtOf lit1).length
        + q.length + pattern.length)
      = replPre ++ stmtOf lit2 ++ replPost := by
    unfold replace_user_id
    simp only [hfj2]
    simp only [hfk2]
    rw [hslice2]
  rw [hval2]
  simp [List.append_assoc]

theorem c4_witness :
    (∀ i, i < (strOf "A" ++ pattern ++ strOf " " ++ stmtOf (strOf "x") ++ strOf " Z " ++ pattern ++ strOf " " ++ stmtOf (strOf "yy") ++ strOf " end").length →
      pattern <+: (strOf "A" ++ pattern ++ strOf " " ++ stmtOf (strOf "x") ++ strOf " Z " ++ pattern ++ strOf " " ++ stmtOf (strOf "yy") ++ strOf " end").drop i →
      i = (strOf "A").length ∨
        i = (strOf "A").length + pattern.length + (strOf " ").length
          + (stmtOf (strOf "x")).length + (strOf " Z ").length) ∧
    (∀ c ∈ strOf "x", c ≠ ';') ∧ (∀ c ∈ strOf "yy", c ≠ ';') ∧
    patch (strOf "A" ++ pattern ++ strOf " " ++ stmtOf (strOf "x") ++ strOf " Z " ++ pattern ++ strOf " " ++ stmtOf (strOf "yy") ++ strOf " end")
      = strOf "A" ++ (replPre ++ stmtOf (strOf "x") ++ replPost) ++ strOf " "
          ++ stmtOf (strOf "x") ++ strOf " Z "
          ++ (replPre ++ stmtOf (strOf "yy") ++ replPost) ++ strOf " "
          ++ stmtOf (strOf "yy") ++ strOf " end" :=
  ⟨by decide, by decide, by decide,
    c4_two_occurrences (strOf "A") (strOf " ") (strOf "x") (strOf " Z ") (strOf " ")
      (strOf "yy") (strOf " end") _
      rfl (by decide) (by decide) (by decide) (by decide) (by decide)⟩
